import Mathlib

/-
Shallow embedding of src/Pytorch/Projects/FGSM/Anti_FGSM.py.

Tensors are modelled over the rationals: an image is its flattened list of
pixel values, a batch pairs images with integer labels, a dataset is a list
of batches.  Framework facilities (autodiff, the seeded permutation
generator, the optimizer step) are passed in as explicit function
parameters; their contracts (a gradient has the shape of its input,
torch.randperm n yields a permutation of the range 0..n-1, loss.backward
writes only gradient buffers) appear as hypotheses where a claim needs
them.  Python/torch numeric edge cases are kept: dividing the Python int
accumulator 0 by the int counter 0 raises ZeroDivisionError, while
dividing a torch scalar tensor by 0 yields inf or nan.
-/

namespace AntiFGSM

abbrev Image := List ℚ

abbrev Label := ℕ

abbrev Batch := List (Image × Label)

/-- Module-level hyper-parameter on line 30 of the source: eps = 0.35. -/
def eps : ℚ := 35 / 100

/-- The default value of the eps parameter in the signature of
generate_image_adversary on line 159 of the source: eps = 0.03. -/
def default_gen_eps : ℚ := 3 / 100

/-- torch sign: maps a scalar to -1, 0 or 1. -/
def qsign (x : ℚ) : ℚ := if 0 < x then 1 else if x < 0 then -1 else 0

/-- torch.clamp(x, 0, 1) on one scalar: values below 0 become 0, values
above 1 become 1, the rest pass through. -/
def clamp01 (x : ℚ) : ℚ := if x < 0 then 0 else if 1 < x then 1 else x

/-- The reordering loop of generate_image_adversary (lines 170-172):
tmp i = xs (rand_idx i), with an out-of-range read given a default. -/
def reorder (idx : List ℕ) (xs : List α) (d : α) : List α :=
  idx.map (fun i => xs.getD i d)

/-- Lines 187-188 of the source: tmp + eps * tmp.grad.data.sign() followed
by torch.clamp(tmp, 0, 1), element by element over the batch. -/
def perturb_images (e : ℚ) (imgs grads : List Image) : List Image :=
  List.zipWith (fun im gr => List.zipWith (fun x gx => clamp01 (x + e * qsign gx)) im gr) imgs grads

/-- Lines 159-190 of the source.  gradOf stands for the framework autodiff:
given the reordered images and labels it returns the gradient of the loss
with respect to the input images (the content of tmp.grad.data after
loss.backward()); rand_idx is the output of torch.randperm(len).  The
default of the eps parameter is 0.03 as in the source. -/
def generate_image_adversary (gradOf : List Image → List Label → List Image)
    (rand_idx : List ℕ) (img : List Image) (label : List Label)
    (e : ℚ := default_gen_eps) : List Image × List Label :=
  let tmp := reorder rand_idx img []
  let tmp_l := reorder rand_idx label 0
  let grad := gradOf tmp tmp_l
  (perturb_images e tmp grad, tmp_l)

/-- A torch scalar value: finite, inf, -inf or nan. -/
inductive PyFloat where
  | fin : ℚ → PyFloat
  | inf : PyFloat
  | neginf : PyFloat
  | nan : PyFloat
deriving DecidableEq

/-- Addition of torch scalars in the range reachable here: nan absorbs,
infinities absorb finite values. -/
def pyAdd : PyFloat → PyFloat → PyFloat
  | .nan, _ => .nan
  | _, .nan => .nan
  | .inf, .neginf => .nan
  | .neginf, .inf => .nan
  | .inf, _ => .inf
  | _, .inf => .inf
  | .neginf, _ => .neginf
  | _, .neginf => .neginf
  | .fin a, .fin b => .fin (a + b)

/-- Division of a torch scalar by a Python int n: for n = 0 torch yields
inf, -inf or nan rather than raising. -/
def pyDivNat : PyFloat → ℕ → PyFloat
  | .nan, _ => .nan
  | .inf, _ => .inf
  | .neginf, _ => .neginf
  | .fin q, n =>
    if n = 0 then (if 0 < q then .inf else if q < 0 then .neginf else .nan)
    else .fin (q / n)

/-- Multiplication of a torch scalar by 100. -/
def pyMul100 : PyFloat → PyFloat
  | .fin q => .fin (q * 100)
  | .inf => .inf
  | .neginf => .neginf
  | .nan => .nan

/-- torch.argmax over a score vector: index of the first maximal entry. -/
def argmaxAux : List ℚ → ℕ → ℕ → ℚ → ℕ
  | [], _, best, _ => best
  | x :: xs, i, best, bv =>
    if bv < x then argmaxAux xs (i + 1) i x else argmaxAux xs (i + 1) best bv

/-- torch.argmax(prediction, 1) for one example. -/
def argmax : List ℚ → ℕ
  | [] => 0
  | x :: xs => argmaxAux xs 1 0 x

/-- correct_prediction.float().mean() of one batch: the fraction of
examples whose argmax score index equals the label; the mean of an empty
tensor is nan. -/
def batchFrac (net : Image → List ℚ) (b : Batch) : PyFloat :=
  if b.length = 0 then .nan
  else .fin ((b.countP (fun p => argmax (net p.1) == p.2) : ℚ) / b.length)

/-- The running accumulator of the accuracy function: it starts as the
Python int 0 (line 198) and becomes a torch scalar tensor after the first
+= of a batch mean. -/
inductive Acc where
  | intZero : Acc
  | ten : PyFloat → Acc
deriving DecidableEq

/-- accuracy += correct_prediction.float().mean(). -/
def accAdd : Acc → PyFloat → Acc
  | .intZero, x => .ten x
  | .ten y, x => .ten (pyAdd y x)

/-- The outcome of the accuracy function: a numeric value, or the
ZeroDivisionError raised when the Python int 0 is divided by the int 0. -/
inductive AccResult where
  | ok : PyFloat → AccResult
  | zeroDivError : AccResult
deriving DecidableEq

/-- The final expression (accuracy / n) * 100 of both branches: int 0
divided by int 0 raises; a tensor divided by any int yields a value. -/
def finalDiv : Acc → ℕ → AccResult
  | .intZero, 0 => .zeroDivError
  | .intZero, _ + 1 => .ok (pyMul100 (.fin 0))
  | .ten x, n => .ok (pyMul100 (pyDivNat x n))

/-- Lines 196-221 of the source.  net is the forward pass of the model;
gradOf and randIdxs supply, per batch index, the framework autodiff result
and the torch.randperm output consumed by generate_image_adversary in the
attack branch; classes is the unused third parameter of the source; the
default of the eps parameter is the module-level constant 0.35.  The
counter n is incremented only in the attack = false branch, exactly as in
the source. -/
def accuracy (net : Image → List ℚ) (gradOf : List Image → List Label → List Image)
    (randIdxs : ℕ → List ℕ) (data : List Batch) (classes : ℕ) (attack : Bool)
    (e : ℚ := eps) : AccResult :=
  if attack = false then
    let r := data.foldl (fun p b => (accAdd p.1 (batchFrac net b), p.2 + 1))
      (Acc.intZero, 0)
    finalDiv r.1 r.2
  else
    let r := data.enum.foldl (fun p kb =>
      let u := kb.2.unzip
      let a := generate_image_adversary gradOf (randIdxs kb.1) u.1 u.2 e
      (accAdd p.1 (batchFrac net (a.1.zip a.2)), p.2))
      (Acc.intZero, (0 : ℕ))
    finalDiv r.1 r.2

/-- Line 136 of the source: the adversarial training branch feeds each
batch through generate_image_adversary WITHOUT passing eps, so the default
0.03 applies. -/
def adv_train_batch (gradOf : List Image → List Label → List Image)
    (idx : List ℕ) (b : Batch) : Batch :=
  let u := b.unzip
  let r := generate_image_adversary gradOf idx u.1 u.2
  r.1.zip r.2

/-- One pass over the training data (the inner loops of training_loop,
lines 111-124 and 131-146).  optStep abstracts forward, loss, zero_grad,
backward and optimizer.step on one batch; gradOf gives the autodiff result
under the current network state; idxs gives the randperm output for each
batch index of the pass. -/
def epoch_body (adv : Bool) (optStep : σ → Batch → σ)
    (gradOf : σ → List Image → List Label → List Image)
    (idxs : ℕ → List ℕ) (data : List Batch) (s : σ) : σ :=
  if adv then
    data.enum.foldl (fun st kb => optStep st (adv_train_batch (gradOf st) (idxs kb.1) kb.2)) s
  else
    data.foldl optStep s

/-- Lines 107-151 of the source.  Runs n_epoch passes; after each pass one
accuracy value is computed (evalAcc abstracts the accuracy call on the
validation data, whose attack flag mirrors adv) and appended as one line
to the corresponding log.  Returns the final network state and the list
of log lines written. -/
def training_loop (n_epoch : ℕ) (optStep : σ → Batch → σ)
    (gradOf : σ → List Image → List Label → List Image)
    (idxs : ℕ → ℕ → List ℕ) (evalAcc : σ → Bool → PyFloat)
    (data_t : List Batch) (adv : Bool) (s : σ) : σ × List PyFloat :=
  (List.range n_epoch).foldl
    (fun p i =>
      let s2 := epoch_body adv optStep gradOf (idxs i) data_t p.1
      (s2, p.2 ++ [evalAcc s2 adv])) (s, [])

/-- The mutable state of the classifier module: its trainable parameters
and their gradient buffers. -/
structure ModelState where
  params : List ℚ
  grads : List ℚ
deriving DecidableEq

/-- generate_image_adversary with the classifier state threaded
explicitly.  backward stands for the framework call loss.backward() (line
184): given the state and the reordered batch it returns the updated
model state together with the gradient of the loss with respect to the
input images; it is the only state-affecting call in the function body. -/
def generate_image_adversary_st
    (backward : ModelState → List Image → List Label → ModelState × List Image)
    (m : ModelState) (rand_idx : List ℕ) (img : List Image) (label : List Label)
    (e : ℚ := default_gen_eps) : ModelState × List Image × List Label :=
  let tmp := reorder rand_idx img []
  let tmp_l := reorder rand_idx label 0
  let r := backward m tmp tmp_l
  (r.1, perturb_images e tmp r.2, tmp_l)

theorem clamp01_nonneg (x : ℚ) : 0 ≤ clamp01 x := by
  unfold clamp01
  split_ifs with h1 h2
  · exact le_refl 0
  · exact zero_le_one
  · exact le_of_not_lt h1

theorem clamp01_le_one (x : ℚ) : clamp01 x ≤ 1 := by
  unfold clamp01
  split_ifs with h1 h2
  · exact zero_le_one
  · exact le_refl 1
  · exact le_of_not_lt h2

theorem clamp01_of_unit (x : ℚ) (h0 : 0 ≤ x) (h1 : x ≤ 1) : clamp01 x = x := by
  unfold clamp01
  rw [if_neg (not_lt.mpr h0), if_neg (not_lt.mpr h1)]

theorem mem_zipWith {α β γ : Type} {f : α → β → γ} :
    ∀ {l1 : List α} {l2 : List β} {c : γ},
      c ∈ List.zipWith f l1 l2 → ∃ a b, c = f a b
  | [], _, _, h => by simp at h
  | _ :: _, [], _, h => by simp at h
  | a :: l1, b :: l2, c, h => by
    rcases List.mem_cons.mp h with h | h
    · exact ⟨a, b, h⟩
    · exact mem_zipWith h

theorem mem_reorder {idx : List ℕ} {xs : List α} {d : α} {y : α}
    (h : y ∈ reorder idx xs d) : y ∈ xs ∨ y = d := by
  rcases List.mem_map.mp h with ⟨i, _, rfl⟩
  by_cases hi : i < xs.length
  · left
    rw [List.getD_eq_getElem _ _ hi]
    exact List.getElem_mem hi
  · right
    exact List.getD_eq_default _ _ (le_of_not_lt hi)

theorem map_getD_range (xs : List α) (d : α) :
    (List.range xs.length).map (fun i => xs.getD i d) = xs := by
  apply List.ext_getElem
  · simp
  · intro i h1 h2
    simp only [List.getElem_map, List.getElem_range]
    exact List.getD_eq_getElem _ _ h2

/-- C3: on a dataset with zero batches, accuracy raises ZeroDivisionError
(the Python int accumulator 0 divided by the int counter 0) rather than
returning any numeric value, for both values of the attack flag. -/
theorem accuracy_empty_dataset_error (net : Image → List ℚ)
    (gradOf : List Image → List Label → List Image) (randIdxs : ℕ → List ℕ)
    (classes : ℕ) (attack : Bool) (e : ℚ) :
    accuracy net gradOf randIdxs [] classes attack e = AccResult.zeroDivError := by
  cases attack <;> rfl

/-- C8: training_loop with n_epoch = 0 leaves the network state unchanged
(zero optimizer updates) and writes zero lines to the accuracy log, for
both values of the adv flag. -/
theorem training_loop_zero_epochs {σ : Type} (optStep : σ → Batch → σ)
    (gradOf : σ → List Image → List Label → List Image)
    (idxs : ℕ → ℕ → List ℕ) (evalAcc : σ → Bool → PyFloat)
    (data_t : List Batch) (adv : Bool) (s : σ) :
    training_loop 0 optStep gradOf idxs evalAcc data_t adv s = (s, []) := rfl

/-- C1 (failing input): on a one-batch dataset where the model is correct
on every example, the attack = false branch returns the per-batch mean
scaled to 100, but the attack = true branch returns inf: its counter n is
never incremented, so the accumulated tensor sum is divided by 0 instead
of by the number of batches. -/
theorem accuracy_attack_branch_not_mean :
    accuracy (fun _ => [1]) (fun t _ => t.map (fun im => im.map (fun _ => 0)))
      (fun _ => [0]) [[([(1 : ℚ) / 2], 0)]] 10 false eps
      = AccResult.ok (PyFloat.fin 100) ∧
    accuracy (fun _ => [1]) (fun t _ => t.map (fun im => im.map (fun _ => 0)))
      (fun _ => [0]) [[([(1 : ℚ) / 2], 0)]] 10 true eps
      = AccResult.ok PyFloat.inf := by
  constructor <;>
    norm_num [accuracy, batchFrac, generate_image_adversary, reorder,
      perturb_images, clamp01, qsign, argmax, argmaxAux, accAdd, pyAdd,
      pyDivNat, pyMul100, finalDiv, eps, List.enum, List.countP,
      List.countP.go]

/-- C2: the adversarial training branch perturbs with the omitted-argument
default 0.03, while accuracy with its default eps perturbs with the
module-level constant 0.35; the two step sizes differ and produce
different perturbed batches. -/
theorem training_eval_eps_mismatch :
    (∀ (g : List Image → List Label → List Image) (idx : List ℕ) (b : Batch),
        adv_train_batch g idx b =
          (let u := b.unzip
           let r := generate_image_adversary g idx u.1 u.2 default_gen_eps
           r.1.zip r.2)) ∧
    (∀ (net : Image → List ℚ) (g : List Image → List Label → List Image)
        (randIdxs : ℕ → List ℕ) (data : List Batch) (classes : ℕ) (attack : Bool),
        accuracy net g randIdxs data classes attack =
          accuracy net g randIdxs data classes attack eps) ∧
    default_gen_eps = 3 / 100 ∧ eps = 35 / 100 ∧
    (generate_image_adversary (fun t _ => t.map (fun im => im.map (fun _ => 1)))
        [0] [[(1 : ℚ) / 2]] [0]).1 ≠
      (generate_image_adversary (fun t _ => t.map (fun im => im.map (fun _ => 1)))
        [0] [[(1 : ℚ) / 2]] [0] eps).1 := by
  refine ⟨fun g idx b => rfl, fun net g randIdxs data classes attack => rfl,
    rfl, rfl, ?_⟩
  norm_num [generate_image_adversary, reorder, perturb_images, clamp01,
    qsign, eps, default_gen_eps]

/-- C7: generate_image_adversary leaves the trainable parameters of the
classifier unchanged, given the framework contract that loss.backward()
writes only gradient buffers, never parameter data. -/
theorem generate_image_adversary_params_frame
    (backward : ModelState → List Image → List Label → ModelState × List Image)
    (hb : ∀ m t l, ((backward m t l).1).params = m.params)
    (m : ModelState) (rand_idx : List ℕ) (img : List Image) (label : List Label)
    (e : ℚ) :
    ((generate_image_adversary_st backward m rand_idx img label e).1).params
      = m.params :=
  hb m (reorder rand_idx img []) (reorder rand_idx label 0)

/-- Witness for C7 at a concrete backward satisfying the contract. -/
theorem generate_image_adversary_params_frame_witness :
    ((generate_image_adversary_st (fun m t _ => (m, t))
        ⟨[1], [0]⟩ [0] [[(1 : ℚ)]] [0] eps).1).params = ([1] : List ℚ) :=
  generate_image_adversary_params_frame (fun m t _ => (m, t))
    (fun _ _ _ => rfl) ⟨[1], [0]⟩ [0] [[(1 : ℚ)]] [0] eps

/-- C10: generate_image_adversary is deterministic given its random
source: with the permutation generator fixed, two calls under the same
seed, the same gradient oracle (same weights and loss), the same batch
and the same epsilon return identical image and label outputs. -/
theorem generate_image_adversary_deterministic
    (randperm : ℕ → List ℕ) (g : List Image → List Label → List Image)
    (img : List Image) (label : List Label) (e : ℚ) (s1 s2 : ℕ) (h : s1 = s2) :
    generate_image_adversary g (randperm s1) img label e =
      generate_image_adversary g (randperm s2) img label e := by rw [h]

/-- Witness for C10 at a concrete seed and batch. -/
theorem generate_image_adversary_deterministic_witness :
    generate_image_adversary (fun t _ => t) ((fun _ : ℕ => [0]) 42) [[(1 : ℚ)]] [0] eps =
      generate_image_adversary (fun t _ => t) ((fun _ : ℕ => [0]) 42) [[(1 : ℚ)]] [0] eps :=
  generate_image_adversary_deterministic (fun _ => [0]) (fun t _ => t)
    [[(1 : ℚ)]] [0] eps 42 42 rfl

/-- C4: for every epsilon at least 0, every gradient oracle (all-zero
gradients included) and every input batch, each element of the perturbed
image batch returned by generate_image_adversary lies in [0, 1]. -/
theorem generate_image_adversary_mem_unit_interval
    (e : ℚ) (he : 0 ≤ e) (g : List Image → List Label → List Image)
    (rand_idx : List ℕ) (img : List Image) (label : List Label) :
    ∀ im ∈ (generate_image_adversary g rand_idx img label e).1,
      ∀ x ∈ im, 0 ≤ x ∧ x ≤ 1 := by
  intro im him x hx
  obtain ⟨a, b, rfl⟩ := mem_zipWith him
  obtain ⟨p, q, rfl⟩ := mem_zipWith hx
  exact ⟨clamp01_nonneg _, clamp01_le_one _⟩

/-- Witness for C4 at a concrete out-of-range input and epsilon 1/10. -/
theorem generate_image_adversary_mem_unit_interval_witness :
    (0 : ℚ) ≤ 1 / 10 ∧
    ∀ im ∈ (generate_image_adversary (fun t _ => t) [0] [[(5 : ℚ)]] [0] (1 / 10)).1,
      ∀ x ∈ im, 0 ≤ x ∧ x ≤ 1 :=
  ⟨by norm_num,
    generate_image_adversary_mem_unit_interval (1 / 10) (by norm_num)
      (fun t _ => t) [0] [[(5 : ℚ)]] [0]⟩

/-- C5: given the torch.randperm contract that rand_idx is a permutation
of the indices 0..len-1, the reordering inside generate_image_adversary
is a permutation of the images and of the labels (no duplication, no
omission), and pairing is preserved: the returned label at position i is
the original label at the permuted source index of the image placed at
position i. -/
theorem generate_image_adversary_pairing
    (g : List Image → List Label → List Image) (rand_idx : List ℕ)
    (img : List Image) (label : List Label) (e : ℚ)
    (hne : img ≠ [])
    (hperm : rand_idx.Perm (List.range img.length))
    (hlen : label.length = img.length) :
    (reorder rand_idx img []).Perm img ∧
    (reorder rand_idx label 0).Perm label ∧
    ∀ i, i < rand_idx.length →
      (generate_image_adversary g rand_idx img label e).2.getD i 0
          = label.getD (rand_idx.getD i 0) 0 ∧
      (reorder rand_idx img []).getD i []
          = img.getD (rand_idx.getD i 0) [] := by
  refine ⟨?_, ?_, ?_⟩
  · have h := hperm.map (fun i => img.getD i [])
    rwa [map_getD_range] at h
  · have hp2 : rand_idx.Perm (List.range label.length) := by
      rw [hlen]; exact hperm
    have h := hp2.map (fun i => label.getD i 0)
    rwa [map_getD_range] at h
  · intro i hi
    constructor
    · show (reorder rand_idx label 0).getD i 0 = _
      have hi2 : i < (reorder rand_idx label 0).length := by
        simpa [reorder] using hi
      rw [List.getD_eq_getElem _ _ hi2]
      simp only [reorder, List.getElem_map]
      rw [List.getD_eq_getElem _ _ hi]
    · have hi2 : i < (reorder rand_idx img []).length := by
        simpa [reorder] using hi
      rw [List.getD_eq_getElem _ _ hi2]
      simp only [reorder, List.getElem_map]
      rw [List.getD_eq_getElem _ _ hi]

/-- Witness for C5 at the concrete swap permutation of a two-image batch. -/
theorem generate_image_adversary_pairing_witness :
    (reorder [1, 0] [[(0 : ℚ)], [1]] []).Perm [[(0 : ℚ)], [1]] ∧
    (reorder [1, 0] [5, 7] (0 : ℕ)).Perm [5, 7] ∧
    ∀ i, i < ([1, 0] : List ℕ).length →
      (generate_image_adversary (fun t _ => t) [1, 0] [[(0 : ℚ)], [1]] [5, 7] 0).2.getD i 0
          = ([5, 7] : List ℕ).getD (([1, 0] : List ℕ).getD i 0) 0 ∧
      (reorder [1, 0] [[(0 : ℚ)], [1]] []).getD i []
          = ([[(0 : ℚ)], [1]] : List Image).getD (([1, 0] : List ℕ).getD i 0) [] :=
  generate_image_adversary_pairing (fun t _ => t) [1, 0] [[(0 : ℚ)], [1]] [5, 7] 0
    (by simp) (List.Perm.swap 0 1 []) (by simp)

theorem perturb_pixels_zero (im gr : List ℚ) (hl : gr.length = im.length)
    (hp : ∀ x ∈ im, 0 ≤ x ∧ x ≤ 1) :
    List.zipWith (fun x gx => clamp01 (x + 0 * qsign gx)) im gr = im := by
  induction im generalizing gr with
  | nil => simp
  | cons x xs ih =>
    cases gr with
    | nil => simp at hl
    | cons gy gys =>
      simp only [List.zipWith_cons_cons]
      have hx := hp x (List.mem_cons_self x xs)
      rw [zero_mul, add_zero, clamp01_of_unit x hx.1 hx.2,
        ih gys (by simpa using hl) (fun y hy => hp y (List.mem_cons_of_mem x hy))]

theorem perturb_images_zero (imgs grads : List Image)
    (hs : List.Forall₂ (fun im gr => gr.length = im.length) imgs grads) :
    (∀ im ∈ imgs, ∀ x ∈ im, 0 ≤ x ∧ x ≤ 1) →
    perturb_images 0 imgs grads = imgs := by
  induction hs with
  | nil => intro _; rfl
  | @cons a b l1 l2 h t ih =>
    intro hp
    have h1 : List.zipWith (fun x gx => clamp01 (x + 0 * qsign gx)) a b = a :=
      perturb_pixels_zero a b h (hp a (List.mem_cons_self a l1))
    have h2 := ih (fun im him => hp im (List.mem_cons_of_mem a him))
    simp only [perturb_images, List.zipWith_cons_cons] at h2 ⊢
    rw [h1, h2]

/-- C6: with epsilon = 0, on a batch whose pixels lie in [0, 1] and given
the framework contract that the input gradient has the shape of the
input, generate_image_adversary returns exactly the reordered original
image batch. -/
theorem generate_image_adversary_eps_zero
    (g : List Image → List Label → List Image) (rand_idx : List ℕ)
    (img : List Image) (label : List Label)
    (hne : img ≠ [])
    (hpix : ∀ im ∈ img, ∀ x ∈ im, 0 ≤ x ∧ x ≤ 1)
    (hshape : List.Forall₂ (fun im gr => gr.length = im.length)
      (reorder rand_idx img [])
      (g (reorder rand_idx img []) (reorder rand_idx label 0))) :
    (generate_image_adversary g rand_idx img label 0).1
      = reorder rand_idx img [] := by
  show perturb_images 0 (reorder rand_idx img []) _ = _
  apply perturb_images_zero _ _ hshape
  intro im him x hx
  rcases mem_reorder him with h | h
  · exact hpix im h x hx
  · subst h; simp at hx

/-- Witness for C6 at a concrete two-image batch and the swap
permutation. -/
theorem generate_image_adversary_eps_zero_witness :
    (generate_image_adversary (fun t _ => t) [1, 0] [[(0 : ℚ)], [1]] [5, 7] 0).1
      = reorder [1, 0] [[(0 : ℚ)], [1]] [] :=
  generate_image_adversary_eps_zero (fun t _ => t) [1, 0] [[(0 : ℚ)], [1]] [5, 7]
    (by simp)
    (by
      intro im him x hx
      rcases List.mem_cons.mp him with h | h
      · subst h
        rcases List.mem_singleton.mp hx with rfl
        norm_num
      · rcases List.mem_singleton.mp h with rfl
        rcases List.mem_singleton.mp hx with rfl
        norm_num)
    (List.forall₂_same.mpr (fun x _ => rfl))

theorem accuracy_fold_all_correct (net : Image → List ℚ) (data : List Batch) :
    (∀ b ∈ data, batchFrac net b = PyFloat.fin 1) →
    ∀ (q : ℚ) (m : ℕ),
      data.foldl (fun p b => (accAdd p.1 (batchFrac net b), p.2 + 1))
        (Acc.ten (PyFloat.fin q), m)
        = (Acc.ten (PyFloat.fin (q + data.length)), m + data.length) := by
  induction data with
  | nil => intro _ q m; simp
  | cons b bs ih =>
    intro h q m
    simp only [List.foldl_cons]
    rw [h b (List.mem_cons_self b bs)]
    have hstep : accAdd (Acc.ten (PyFloat.fin q)) (PyFloat.fin 1)
        = Acc.ten (PyFloat.fin (q + 1)) := rfl
    rw [hstep, ih (fun x hx => h x (List.mem_cons_of_mem b hx)) (q + 1) (m + 1)]
    simp only [List.length_cons, Prod.mk.injEq]
    constructor
    · congr 1
      congr 1
      push_cast
      ring
    · omega

/-- C9: on a non-empty dataset of non-empty batches where the argmax
prediction equals the true label for every example of every batch,
accuracy with attack = false returns exactly 100. -/
theorem accuracy_all_correct_100
    (net : Image → List ℚ) (gradOf : List Image → List Label → List Image)
    (randIdxs : ℕ → List ℕ) (data : List Batch) (classes : ℕ) (e : ℚ)
    (hne : data ≠ [])
    (hb : ∀ b ∈ data, b ≠ [])
    (hcorrect : ∀ b ∈ data, ∀ p ∈ b, argmax (net p.1) = p.2) :
    accuracy net gradOf randIdxs data classes false e
      = AccResult.ok (PyFloat.fin 100) := by
  have hfrac : ∀ b ∈ data, batchFrac net b = PyFloat.fin 1 := by
    intro b hbmem
    have hlen : b.length ≠ 0 := by
      intro hz
      exact hb b hbmem (List.length_eq_zero.mp hz)
    unfold batchFrac
    rw [if_neg hlen]
    congr 1
    have hcount : b.countP (fun p => argmax (net p.1) == p.2) = b.length := by
      apply List.countP_eq_length.mpr
      intro p hp
      simpa using hcorrect b hbmem p hp
    rw [hcount]
    have : (b.length : ℚ) ≠ 0 := by exact_mod_cast hlen
    field_simp
  cases data with
  | nil => exact absurd rfl hne
  | cons b bs =>
    unfold accuracy
    rw [if_pos rfl]
    simp only [List.foldl_cons]
    rw [hfrac b (List.mem_cons_self b bs)]
    have hstep : accAdd Acc.intZero (PyFloat.fin 1) = Acc.ten (PyFloat.fin 1) := rfl
    rw [hstep,
      accuracy_fold_all_correct net bs
        (fun x hx => hfrac x (List.mem_cons_of_mem b hx)) 1 (0 + 1)]
    show AccResult.ok (pyMul100 (pyDivNat (PyFloat.fin (1 + bs.length)) (0 + 1 + bs.length)))
      = AccResult.ok (PyFloat.fin 100)
    have hz : 0 + 1 + bs.length ≠ 0 := by omega
    simp only [pyDivNat, if_neg hz, pyMul100]
    congr 2
    have hv : ((0 + 1 + bs.length : ℕ) : ℚ) = 1 + bs.length := by push_cast; ring
    have hnz : (1 + (bs.length : ℚ)) ≠ 0 := by positivity
    rw [hv, div_self hnz, one_mul]

/-- Witness for C9 at a one-batch dataset where the constant score vector
makes every prediction correct. -/
theorem accuracy_all_correct_100_witness :
    accuracy (fun _ => [1]) (fun t _ => t) (fun _ => []) [[([(0 : ℚ)], 0)]] 10 false eps
      = AccResult.ok (PyFloat.fin 100) :=
  accuracy_all_correct_100 (fun _ => [1]) (fun t _ => t) (fun _ => [])
    [[([(0 : ℚ)], 0)]] 10 eps
    (by simp)
    (by
      intro b hbm
      rcases List.mem_singleton.mp hbm with rfl
      simp)
    (by
      intro b hbm p hp
      rcases List.mem_singleton.mp hbm with rfl
      rcases List.mem_singleton.mp hp with rfl
      rfl)

end AntiFGSM
